import Mathlib

/-!
Verification of the secondary supertype resolution subsystem
(`src/hotspot/share/oops/klass.cpp`, `src/hotspot/share/oops/klass.inline.hpp`).

The development shallowly embeds the hash function, seed codec, slot index
function, table packer (`put_element` / `pack_table`), size ladder
(`resize_table`), table materialization (`create_secondary_supers_table`)
and the lookup path (`search_secondary_supers_table`), and proves the
placement, coverage, no-eviction, codec and termination properties stated
for them.  Machine integers are modelled as `Nat` with explicit `% 2^32`
where 32-bit overflow matters; the C `int` arithmetic of `put_element` is
modelled as `Int`.
-/

namespace JdkSS

/-- The value `2^32`, the modulus of `uint32_t` arithmetic. -/
def u32 : Nat := 4294967296

/-- Process-wide configuration flags used by the subsystem.
`SecondarySupersTableMaxSize` is asserted to be a power of two
(`Klass::size_mask`), so it is represented by its exponent `logMax`. -/
structure Config where
  logMax : Nat
  minSize : Nat
  sizingMode : Nat
  maxAttempts : Nat
  useNewCode4 : Bool
  useTable : Bool
deriving DecidableEq, Repr

/-- The flag `SecondarySupersTableMaxSize`, a power of two. -/
def Config.maxSize (cfg : Config) : Nat := 2 ^ cfg.logMax

/-- Modelled from the spec: a `ClassDescriptor` (C++ `Klass`, whose class
declaration `klass.hpp` is not part of the sources) is an opaque identity
(`id` models pointer identity) carrying a stable 32-bit `hash_code`. -/
structure Klass where
  id : Nat
  hash : Nat
deriving DecidableEq, Repr

/-- Modelled from the spec: the `Klass::hash_code()` accessor (declared in
the missing `klass.hpp`) returns the stable per-class hash value. -/
def Klass.hash_code (k : Klass) : Nat := k.hash

/-- The HotSpot utility `round_up_power_of_2` (for positive arguments):
the least power of two that is greater than or equal to `n`. -/
def round_up_power_of_2 (n : Nat) : Nat := 2 ^ Nat.clog 2 n

/-- The HotSpot utility `round_down_power_of_2` (for positive arguments):
the greatest power of two that is less than or equal to `n`. -/
def round_down_power_of_2 (n : Nat) : Nat := 2 ^ Nat.log 2 n

/-- The HotSpot utility `right_n_bits`: a mask of the `n` lowest bits. -/
def right_n_bits (n : Nat) : Nat := (1 <<< n) - 1

/-- 32-bit unsigned subtraction: `(a - b) mod 2^32`. -/
def usub32 (a b : Nat) : Nat := (a % u32 + (u32 - b % u32)) % u32

/-- Modelled from the spec: the HotSpot utility `ror32` (32-bit rotate
right, shift taken modulo the width), used by the mixing function. -/
def ror32 (x n : Nat) : Nat :=
  let s := n % 32
  ((x % u32) >>> s ||| (x % u32) <<< (32 - s)) % u32

/-- Modelled from the spec: the HotSpot utility `fullmul32` returning the
high and low 32-bit halves of the full 64-bit product. -/
def fullmul32 (x y : Nat) : Nat × Nat :=
  let p := (x % u32) * (y % u32)
  (p / u32, p % u32)

/-- The static mixing function `get_hash32` from `klass.cpp`. -/
def get_hash32 (x y : Nat) : Nat :=
  let M : Nat := 0x337954D5
  let A : Nat := 0xAAAAAAAA
  let H0 := (x ^^^ y) % u32
  let L0 := (x ^^^ A) % u32
  let UV0 := fullmul32 L0 M
  let Q0 := (H0 * M) % u32
  let L1 := Q0 ^^^ UV0.1
  let UV1 := fullmul32 L1 M
  let P1 := UV0.2 ^^^ M
  let Q1 := ror32 P1 L1
  let L2 := Q1 ^^^ UV1.1
  UV1.2 ^^^ L2

namespace Klass

/-- `Klass::size_shift()` from `klass.inline.hpp`:
`log2i_exact(SecondarySupersTableMaxSize) + 1`. -/
def size_shift (cfg : Config) : Nat := cfg.logMax + 1

/-- `Klass::size_mask()` from `klass.inline.hpp`:
`(SecondarySupersTableMaxSize << 1) - 1`. -/
def size_mask (cfg : Config) : Nat := (cfg.maxSize <<< 1) - 1

/-- `Klass::seed2size` from `klass.inline.hpp`. -/
def seed2size (cfg : Config) (seed : Nat) : Nat :=
  (seed >>> (0 * size_shift cfg)) &&& size_mask cfg

/-- `Klass::seed2mask` from `klass.inline.hpp`. -/
def seed2mask (cfg : Config) (seed : Nat) : Nat :=
  (seed >>> (1 * size_shift cfg)) &&& size_mask cfg

/-- `Klass::compose_seed32` from `klass.inline.hpp`.  `~right_n_bits` is
computed in `uint32_t`, hence the complement against `2^32 - 1`. -/
def compose_seed32 (cfg : Config) (h32 : Nat) (table_size : Nat) : Nat :=
  let seed_mask := (u32 - 1) - right_n_bits (2 * size_shift cfg)
  let table_mask := if 0 < table_size then round_up_power_of_2 table_size - 1 else 0
  (h32 &&& seed_mask) ||| (table_mask <<< size_shift cfg) ||| table_size

/-- `Klass::index` from `klass.cpp` (lines 767-789): the slot index
function with its three strategies selected by
`SecondarySupersTableSizingMode`.  The final strategy computes, in
`uint32_t` arithmetic, `h3 = (h2 & mask) - table_size` and then
`h4 = h3 ^ (int(h3) >> 31)`; the arithmetic right shift of the sign bit
is the mask `0xFFFFFFFF` exactly when `h3` is at least `2^31`. -/
def index (k : Klass) (cfg : Config) (seed : Nat) (table_size : Nat) : Nat :=
  let is_power_of_2_sizes_only := cfg.sizingMode &&& 1 ≠ 0
  let mod_rounding_mode := cfg.sizingMode &&& 8 ≠ 0
  let h2 := get_hash32 seed k.hash_code
  if is_power_of_2_sizes_only then
    h2 &&& usub32 table_size 1
  else if mod_rounding_mode then
    h2 % table_size
  else
    let mask := round_up_power_of_2 table_size - 1
    let h3 := usub32 (h2 &&& mask) table_size
    h3 ^^^ (if h3 < 2 ^ 31 then 0 else u32 - 1)

end Klass

/-- The packer's working state: the slot table (nullable entries) and the
overflow tail (`secondary_list` / `conflicts` in the source). -/
structure PackState where
  table : List (Option Klass)
  tail : List Klass
deriving DecidableEq, Repr

/-- The static `put_element` from `klass.cpp` (lines 477-499).
`empty_slots` is C `int` arithmetic; the element is placed at its natural
slot when the probe finds an empty slot, and is appended to the overflow
list otherwise. -/
def put_element (cfg : Config) (seed : Nat) (elem : Klass)
    (table_size elem_count : Nat) (st : PackState) : PackState :=
  let empty_slots : Int := (st.tail.length : Int) + (table_size : Int) - (elem_count : Int)
  if 0 < empty_slots then
    let idx := elem.index cfg seed table_size
    match st.table.getD idx none with
    | none => { st with table := st.table.set idx (some elem) }
    | some _ => { st with tail := st.tail ++ [elem] }
  else
    { st with tail := st.tail ++ [elem] }

/-- The element loop of the static `pack_table` (lines 501-509): element
`idx` of the input is passed to `put_element` with `elem_count = idx`. -/
def pack_from (cfg : Config) (seed table_size : Nat) :
    List Klass → Nat → PackState → PackState
  | [], _, st => st
  | e :: es, i, st =>
      pack_from cfg seed table_size es (i + 1) (put_element cfg seed e table_size i st)

/-- The single-group static `pack_table` (lines 501-509). -/
def pack_table (cfg : Config) (seed table_size : Nat)
    (elements : List Klass) (st : PackState) : PackState :=
  pack_from cfg seed table_size elements 0 st

/-- The two-group static `pack_table` (lines 511-521): primaries are packed
first, then secondaries, into the same table. -/
def pack_table2 (cfg : Config) (seed table_size : Nat)
    (primaries secondaries : List Klass) (st : PackState) : PackState :=
  pack_table cfg seed table_size secondaries
    (pack_table cfg seed table_size primaries st)

/-- The fresh packer state built by the attempt loop: a table of
`table_size` empty slots and an empty tail. -/
def init_pack (table_size : Nat) : PackState :=
  { table := List.replicate table_size none, tail := [] }

/-- The residents of a slot table: its non-null entries in order. -/
def residents (table : List (Option Klass)) : List Klass :=
  table.filterMap id

/-- The static `resize_table` from `klass.cpp` (lines 523-553). -/
def resize_table (cfg : Config) (table_size num_of_secondaries : Nat) : Nat :=
  let is_power_of_2_sizes_only := cfg.sizingMode &&& 1 ≠ 0
  let new_size :=
    if is_power_of_2_sizes_only then
      if 0 < table_size then
        min (table_size / 2) cfg.maxSize
      else
        if cfg.minSize ≤ num_of_secondaries then round_down_power_of_2 num_of_secondaries
        else 0
    else
      let num_of_secondaries2 := num_of_secondaries / 2
      if 0 < table_size then
        if 16 < num_of_secondaries then
          max (table_size - 1) (max num_of_secondaries2 cfg.minSize)
        else
          table_size + 1
      else
        if cfg.minSize ≤ num_of_secondaries then min (num_of_secondaries2 + 10) num_of_secondaries
        else 0
  min new_size cfg.maxSize

/-- The static `is_done` from `klass.cpp` (lines 555-567). -/
def is_done (table_size num_of_conflicts num_of_secondaries : Nat) : Bool :=
  if table_size = 0 then true
  else if num_of_conflicts = 0 then true
  else if table_size + num_of_conflicts = num_of_secondaries then true
  else false

/-- One step of the size ladder of
`Klass::initialize_secondary_supers_table` (lines 945-950): when the
attempt budget for a size is exhausted without a perfect packing, the
loop continues only while `table_size > SecondarySupersTableMinSize`,
replaces the size via `resize_table`, and keeps going only while the new
size is above half the element count and below the element count plus
the minimum size.  `none` means the search stops at the current best. -/
def next_size (cfg : Config) (num_of_secondaries table_size : Nat) : Option Nat :=
  if cfg.minSize < table_size then
    let ns := resize_table cfg table_size num_of_secondaries
    if num_of_secondaries / 2 < ns ∧ ns < num_of_secondaries + cfg.minSize then some ns
    else none
  else none

/-- The size ladder as a step function on an optional current size. -/
def ladder_step (cfg : Config) (num_of_secondaries : Nat) :
    Option Nat → Option Nat
  | none => none
  | some s => next_size cfg num_of_secondaries s

/-- The static `compute_conflicts` from `klass.cpp` (lines 625-639):
counts, per slot, how many tail elements hash to that slot. -/
def compute_conflicts (cfg : Config) (seed : Nat)
    (table : List (Option Klass)) (tail : List Klass) : List Nat :=
  let table_size := table.length
  let init := List.replicate table_size 0
  if 0 < table_size then
    tail.foldl (fun cs k =>
      let idx := k.index cfg seed table_size
      cs.set idx (cs.getD idx 0 + 1)) init
  else init

/-- The per-class persisted state: the 64-bit `_secondary_supers_seed` and
the flat `_secondary_supers` array.  The conflict tag bits packed into the
low bits of each stored pointer are stripped by `secondary_supers_at`
before every comparison the lookup makes, so the storage is modelled
untagged. -/
structure KlassState where
  seed : Nat
  storage : List (Option Klass)
deriving DecidableEq, Repr

/-- `Klass::secondary_supers_at`, with the conflict tag already removed. -/
def secondary_supers_at (st : KlassState) (i : Nat) : Option Klass :=
  st.storage.getD i none

/-- Modelled from the spec: `Klass::secondary_supers_table_size()`
(declared in the missing `klass.hpp`) decodes the primary table size from
the low 32 seed bits; `Klass::set_secondary_supers` asserts
`(uint)best_table->length() == secondary_supers_table_size()` for the
seed composed with that size. -/
def secondary_supers_table_size (cfg : Config) (st : KlassState) : Nat :=
  Klass.seed2size cfg (st.seed % u32)

/-- `Klass::search_secondary_supers_linear` (lines 131-140). -/
def search_secondary_supers_linear (st : KlassState) (k : Klass) : Bool :=
  st.storage.any (fun e => e = some k)

/-- The trailing `secondary_supers()->contains(k, linear_base_idx)` scan. -/
def tail_contains (st : KlassState) (base : Nat) (k : Klass) : Bool :=
  (st.storage.drop base).any (fun e => e = some k)

/-- `Klass::search_secondary_supers_table` (lines 142-182). -/
def search_secondary_supers_table (cfg : Config) (st : KlassState) (k : Klass) : Bool :=
  let secondary_seed := (st.seed >>> 32) % u32
  let primary_seed := st.seed % u32
  let primary_table_size := secondary_supers_table_size cfg st
  let secondary_table_size := Klass.seed2size cfg secondary_seed
  let primary_base_idx := 0
  let secondary_base_idx := primary_base_idx + primary_table_size
  let linear_base_idx := secondary_base_idx + secondary_table_size
  if 0 < primary_table_size then
    let primary_idx := k.index cfg primary_seed primary_table_size
    match secondary_supers_at st (primary_base_idx + primary_idx) with
    | some p =>
      if p = k then true
      else if 0 < secondary_table_size then
        let secondary_idx :=
          k.index cfg (if cfg.useNewCode4 then primary_seed else secondary_seed)
            secondary_table_size
        match secondary_supers_at st (secondary_base_idx + secondary_idx) with
        | some s => if s = k then true else tail_contains st linear_base_idx k
        | none => false
      else tail_contains st linear_base_idx k
    | none => false
  else
    tail_contains st linear_base_idx k

/-- `Klass::search_secondary_supers` (lines 111-129): identity
short-circuit, then the table probe or the linear scan depending on
`UseSecondarySupersTable`. -/
def search_secondary_supers (cfg : Config) (c : Klass) (st : KlassState) (k : Klass) : Bool :=
  if c = k then true
  else if cfg.useTable then search_secondary_supers_table cfg st k
  else search_secondary_supers_linear st k

/-- `Klass::create_secondary_supers_table` (lines 979-1019), untagged
view: the flat storage is the primary table, then the secondary table,
then the tail.  A tag `add_tag(elem, t)` only modifies the low pointer
bits, which `secondary_supers_at` strips, and a null entry keeps tag 0. -/
def create_secondary_supers_table (primary_table secondary_table : List (Option Klass))
    (tail : List Klass) : List (Option Klass) :=
  primary_table ++ secondary_table ++ tail.map some

/-- One materialized outcome of
`Klass::initialize_secondary_supers_table` (lines 886-977 and 791-884):
a first-level two-group packing of the primaries and secondaries, an
optional second-level packing of the resulting tail (with the primary
seed when `UseNewCode4`, the drawn secondary seed otherwise), and the
flat storage of `create_secondary_supers_table` published together with
the combined 64-bit seed. -/
def build_secondary_supers (cfg : Config) (seed1 size1 seed2 size2 : Nat)
    (primaries secondaries : List Klass) : KlassState :=
  let s1 := pack_table2 cfg seed1 size1 primaries secondaries (init_pack size1)
  let seedB := if cfg.useNewCode4 then seed1 else seed2
  let s2 := pack_table cfg seedB size2 s1.tail (init_pack size2)
  { seed := (seed2 <<< 32) ||| seed1,
    storage := create_secondary_supers_table s1.table s2.table s2.tail }

/-- The seed stored by `Klass::set_secondary_supers` (lines 457-475):
when the array is non-empty and the primary seed is zero, the high half
is replaced by the tail-only marker `compose_seed32(0xFFFFFFFF, 0)`. -/
def set_secondary_supers_seed (cfg : Config) (k : Option (List (Option Klass)))
    (seed1 seed2 : Nat) : Nat :=
  let seed2a :=
    match k with
    | some arr => if 0 < arr.length ∧ seed1 = 0 then Klass.compose_seed32 cfg (u32 - 1) 0 else seed2
    | none => seed2
  (seed2a <<< 32) ||| seed1

/-! ### Basic numeric facts -/

lemma u32_eq : u32 = 2 ^ 32 := by norm_num [u32]

lemma size_mask_eq (cfg : Config) :
    Klass.size_mask cfg = 2 ^ Klass.size_shift cfg - 1 := by
  simp [Klass.size_mask, Klass.size_shift, Config.maxSize, Nat.shiftLeft_eq, Nat.pow_succ]

lemma testBit_size_mask (cfg : Config) (i : Nat) :
    (Klass.size_mask cfg).testBit i = decide (i < Klass.size_shift cfg) := by
  rw [size_mask_eq]; exact Nat.testBit_two_pow_sub_one _ _

lemma testBit_seed_mask (cfg : Config) (hs : 2 * Klass.size_shift cfg ≤ 32) (i : Nat) :
    (u32 - 1 - right_n_bits (2 * Klass.size_shift cfg)).testBit i
      = (decide (i < 32) && !decide (i < 2 * Klass.size_shift cfg)) := by
  have hpow : (2:Nat) ^ (2 * Klass.size_shift cfg) ≤ 2 ^ 32 :=
    Nat.pow_le_pow_right (by norm_num) hs
  have h1 : (2:Nat) ^ (2 * Klass.size_shift cfg) - 1 < 2 ^ 32 := by omega
  have h2 : u32 - 1 - right_n_bits (2 * Klass.size_shift cfg)
      = 2 ^ 32 - ((2 ^ (2 * Klass.size_shift cfg) - 1) + 1) := by
    have hone : (1:Nat) <<< (2 * Klass.size_shift cfg) = 2 ^ (2 * Klass.size_shift cfg) := by
      simp [Nat.shiftLeft_eq]
    simp only [right_n_bits, hone, u32_eq]
    omega
  rw [h2, Nat.testBit_two_pow_sub_succ h1]
  simp

lemma le_round_up (n : Nat) : n ≤ round_up_power_of_2 n :=
  Nat.le_pow_clog (by norm_num) n

lemma round_up_le {n m : Nat} (h : n ≤ 2 ^ m) : round_up_power_of_2 n ≤ 2 ^ m := by
  apply Nat.pow_le_pow_right (by norm_num)
  calc Nat.clog 2 n ≤ Nat.clog 2 (2 ^ m) := Nat.clog_mono_right _ h
    _ = m := Nat.clog_pow _ _ (by norm_num)

lemma round_up_lt_two_mul {n : Nat} (h : 0 < n) : round_up_power_of_2 n < 2 * n := by
  unfold round_up_power_of_2
  rcases Nat.lt_or_ge n 2 with h2 | h2
  · have hn1 : n = 1 := by omega
    subst hn1
    simp [Nat.clog_one_right]
  · have h3 : 2 ^ (Nat.clog 2 n - 1) < n := Nat.pow_pred_clog_lt_self (by norm_num) (by omega)
    have h4 : 0 < Nat.clog 2 n := Nat.clog_pos (by norm_num) h2
    calc 2 ^ Nat.clog 2 n = 2 * 2 ^ (Nat.clog 2 n - 1) := by
          rw [← Nat.pow_succ']
          congr 1
          omega
      _ < 2 * n := by omega

lemma xor_all_ones {n x : Nat} (hx : x < 2 ^ n) : x ^^^ (2 ^ n - 1) = 2 ^ n - 1 - x := by
  apply Nat.eq_of_testBit_eq
  intro i
  have h2 : 2 ^ n - 1 - x = 2 ^ n - (x + 1) := by omega
  rw [h2, Nat.testBit_two_pow_sub_succ hx, Nat.testBit_xor, Nat.testBit_two_pow_sub_one]
  rcases Nat.lt_or_ge i n with hi | hi
  · simp [hi]
  · have hf : x.testBit i = false :=
      Nat.testBit_lt_two_pow (lt_of_lt_of_le hx (Nat.pow_le_pow_right (by norm_num) hi))
    simp [hf, Nat.not_lt.mpr hi, Nat.lt_irrefl]

lemma usub32_eq_of_le {a b : Nat} (hb : b ≤ a) (ha : a < u32) : usub32 a b = a - b := by
  unfold usub32
  rw [Nat.mod_eq_of_lt ha, Nat.mod_eq_of_lt (show b < u32 by omega)]
  have h1 : a + (u32 - b) = (a - b) + u32 := by
    have : b ≤ u32 := by omega
    omega
  rw [h1, Nat.add_mod_right, Nat.mod_eq_of_lt (by omega)]

lemma usub32_eq_of_lt {a b : Nat} (hab : a < b) (hb : b < u32) :
    usub32 a b = u32 - (b - a) := by
  unfold usub32
  rw [Nat.mod_eq_of_lt (show a < u32 by omega), Nat.mod_eq_of_lt hb]
  have h1 : a + (u32 - b) = u32 - (b - a) := by omega
  rw [h1, Nat.mod_eq_of_lt (by omega)]

/-! ### Seed codec lemmas -/

lemma maxSize_lt_two_pow_shift (cfg : Config) : cfg.maxSize < 2 ^ Klass.size_shift cfg := by
  simp only [Config.maxSize, Klass.size_shift, Nat.pow_succ]
  have : 0 < (2:Nat) ^ cfg.logMax := Nat.pos_pow_of_pos _ (by norm_num)
  omega

lemma seed2size_compose (cfg : Config) (hs : 2 * Klass.size_shift cfg ≤ 32)
    (h n : Nat) (hn : n ≤ cfg.maxSize) :
    Klass.seed2size cfg (Klass.compose_seed32 cfg h n) = n := by
  have hnlt : n < 2 ^ Klass.size_shift cfg :=
    lt_of_le_of_lt hn (maxSize_lt_two_pow_shift cfg)
  apply Nat.eq_of_testBit_eq
  intro i
  simp only [Klass.seed2size, Nat.zero_mul, Nat.shiftRight_zero, Nat.testBit_and,
    testBit_size_mask, Klass.compose_seed32, Nat.testBit_or, testBit_seed_mask cfg hs,
    Nat.testBit_shiftLeft]
  rcases Nat.lt_or_ge i (Klass.size_shift cfg) with hi | hi
  · have hi2 : i < 2 * Klass.size_shift cfg := by omega
    simp [hi, hi2, Nat.not_le.mpr hi]
  · have hf : n.testBit i = false :=
      Nat.testBit_lt_two_pow (lt_of_lt_of_le hnlt (Nat.pow_le_pow_right (by norm_num) hi))
    simp [Nat.not_lt.mpr hi, hf]

lemma seed2mask_compose (cfg : Config) (hs : 2 * Klass.size_shift cfg ≤ 32)
    (h n : Nat) (hn : n ≤ cfg.maxSize) :
    Klass.seed2mask cfg (Klass.compose_seed32 cfg h n)
      = (if 0 < n then round_up_power_of_2 n - 1 else 0) := by
  have hnlt : n < 2 ^ Klass.size_shift cfg :=
    lt_of_le_of_lt hn (maxSize_lt_two_pow_shift cfg)
  have htm : (if 0 < n then round_up_power_of_2 n - 1 else 0) < 2 ^ Klass.size_shift cfg := by
    split
    · have h1 : round_up_power_of_2 n ≤ 2 ^ cfg.logMax := round_up_le hn
      have h2 : (2:Nat) ^ cfg.logMax < 2 ^ Klass.size_shift cfg := by
        apply Nat.pow_lt_pow_right (by norm_num)
        simp [Klass.size_shift]
      omega
    · exact Nat.pos_pow_of_pos _ (by norm_num)
  apply Nat.eq_of_testBit_eq
  intro i
  simp only [Klass.seed2mask, Nat.one_mul, Nat.testBit_and, testBit_size_mask,
    Klass.compose_seed32, Nat.testBit_shiftRight, Nat.testBit_or,
    testBit_seed_mask cfg hs, Nat.testBit_shiftLeft]
  rcases Nat.lt_or_ge i (Klass.size_shift cfg) with hi | hi
  · have hsm : ¬ (Klass.size_shift cfg + i < 2 * Klass.size_shift cfg) → False := by
      intro hq
      exact hq (by omega)
    have hnb : n.testBit (Klass.size_shift cfg + i) = false :=
      Nat.testBit_lt_two_pow
        (lt_of_lt_of_le hnlt (Nat.pow_le_pow_right (by norm_num) (by omega)))
    have harith : Klass.size_shift cfg + i - Klass.size_shift cfg = i := by omega
    simp [hi, hnb, harith, Nat.le_add_right, show Klass.size_shift cfg + i
      < 2 * Klass.size_shift cfg by omega]
  · have hf : Nat.testBit (if 0 < n then round_up_power_of_2 n - 1 else 0) i = false :=
      Nat.testBit_lt_two_pow (lt_of_lt_of_le htm (Nat.pow_le_pow_right (by norm_num) hi))
    simp [Nat.not_lt.mpr hi, hf]

/-! ### Slot index range -/

lemma index_lt (cfg : Config) (k : Klass) (seed table_size : Nat)
    (h0 : 0 < table_size) (h1 : table_size < u32) :
    Klass.index k cfg seed table_size < table_size := by
  have hu : u32 = 2 ^ 32 := u32_eq
  unfold Klass.index
  generalize get_hash32 seed k.hash_code = h2
  by_cases hm1 : cfg.sizingMode &&& 1 ≠ 0
  · rw [if_pos hm1]
    have husub : usub32 table_size 1 = table_size - 1 := usub32_eq_of_le (by omega) h1
    rw [husub]
    have := Nat.and_le_right (n := h2) (m := table_size - 1)
    omega
  · rw [if_neg hm1]
    by_cases hm8 : cfg.sizingMode &&& 8 ≠ 0
    · rw [if_pos hm8]
      exact Nat.mod_lt _ h0
    · rw [if_neg hm8]
      dsimp only
      set K := round_up_power_of_2 table_size with hK
      have hKge : table_size ≤ K := le_round_up table_size
      have hKlt : K < 2 * table_size := round_up_lt_two_mul h0
      have e31 : (2:Nat) ^ 31 = 2147483648 := by norm_num
      have e32 : (2:Nat) ^ 32 = 4294967296 := by norm_num
      have hK32 : K ≤ 2 ^ 32 := round_up_le (by omega)
      have hvle : h2 &&& (K - 1) ≤ K - 1 := Nat.and_le_right
      set v := h2 &&& (K - 1) with hv
      have hvlt : v < K := by omega
      have hvu : v < u32 := by omega
      rcases Nat.lt_or_ge v table_size with hvs | hvs
      · have h3eq : usub32 v table_size = u32 - (table_size - v) :=
          usub32_eq_of_lt hvs h1
        rw [h3eq]
        by_cases hlt : u32 - (table_size - v) < 2 ^ 31
        · rw [if_pos hlt, Nat.xor_zero]
          omega
        · rw [if_neg hlt]
          have hcompl : (u32 - (table_size - v)) ^^^ (u32 - 1) = u32 - 1 - (u32 - (table_size - v)) := by
            rw [hu]
            exact xor_all_ones (by omega)
          rw [hcompl]
          omega
      · have h3eq : usub32 v table_size = v - table_size :=
          usub32_eq_of_le hvs hvu
        rw [h3eq]
        by_cases hlt : v - table_size < 2 ^ 31
        · rw [if_pos hlt, Nat.xor_zero]
          omega
        · exfalso
          rcases Nat.lt_or_ge K (2 ^ 32) with hk31 | hk32
          · have : K ≤ 2 ^ 31 ∨ 2 ^ 31 < K := by omega
            rcases this with hKa | hKb
            · omega
            · omega
          · omega

/-! ### Concrete configurations used by the witnesses -/

/-- A configuration with the masked round-up difference (reflection)
indexing strategy: `SecondarySupersTableMaxSize = 64`,
`SecondarySupersTableMinSize = 2`, `SecondarySupersTableSizingMode = 0`. -/
def cfgA : Config :=
  { logMax := 6, minSize := 2, sizingMode := 0, maxAttempts := 4,
    useNewCode4 := false, useTable := true }

/-- A configuration with the modulo indexing strategy
(`SecondarySupersTableSizingMode = 8`). -/
def cfgM : Config :=
  { logMax := 6, minSize := 2, sizingMode := 8, maxAttempts := 4,
    useNewCode4 := false, useTable := true }

/-- A configuration with power-of-two-only sizing
(`SecondarySupersTableSizingMode = 1`). -/
def cfgP : Config :=
  { logMax := 6, minSize := 2, sizingMode := 1, maxAttempts := 4,
    useNewCode4 := false, useTable := true }

/-- C5: seed codec round-trip.  For every raw hash `h` and every valid
table size `n ≤ SecondarySupersTableMaxSize` (including `n = 0`, the
tail-only encoding), `seed2size (compose_seed32 h n) = n`, and for
`n > 0` the decoded mask equals `round_up_power_of_2 n - 1`. -/
theorem C5_seed_codec_roundtrip (cfg : Config) (h n : Nat)
    (hcfg : 2 * Klass.size_shift cfg ≤ 32) (hn : n ≤ cfg.maxSize) :
    Klass.seed2size cfg (Klass.compose_seed32 cfg h n) = n ∧
      (0 < n →
        Klass.seed2mask cfg (Klass.compose_seed32 cfg h n) = round_up_power_of_2 n - 1) := by
  refine ⟨seed2size_compose cfg hcfg h n hn, fun hpos => ?_⟩
  rw [seed2mask_compose cfg hcfg h n hn, if_pos hpos]

/-- Witness for C5 at `h = 0xDEADBEEF`, `n = 5`. -/
theorem C5_seed_codec_roundtrip_witness :
    2 * Klass.size_shift cfgA ≤ 32 ∧ 5 ≤ cfgA.maxSize ∧
      (Klass.seed2size cfgA (Klass.compose_seed32 cfgA 3735928559 5) = 5 ∧
        (0 < 5 →
          Klass.seed2mask cfgA (Klass.compose_seed32 cfgA 3735928559 5)
            = round_up_power_of_2 5 - 1)) :=
  ⟨by decide, by decide, C5_seed_codec_roundtrip cfgA 3735928559 5 (by decide) (by decide)⟩

/-- C6: slot index range.  Under the precondition `table_size > 0` (and
the `uint` bound on the size), `Klass::index` returns an index in
`[0, table_size)`; the configuration, and with it each of the three
indexing strategies (power-of-two masking, modulo, masked round-up
difference with reflection), is universally quantified. -/
theorem C6_slot_index_range (cfg : Config) (k : Klass) (seed table_size : Nat)
    (h0 : 0 < table_size) (h1 : table_size < u32) :
    Klass.index k cfg seed table_size < table_size :=
  index_lt cfg k seed table_size h0 h1

/-- Witness for C6 at the reflection strategy, table size 7. -/
theorem C6_slot_index_range_witness :
    0 < 7 ∧ 7 < u32 ∧ Klass.index ⟨0, 12345⟩ cfgA 999 7 < 7 :=
  ⟨by decide, by decide, C6_slot_index_range cfgA ⟨0, 12345⟩ 999 7 (by decide) (by decide)⟩

/-! ### Packer lemmas -/

/-- The content of slot `j` of a table (`nullptr` when out of range). -/
def slot (t : List (Option Klass)) (j : Nat) : Option Klass := t.getD j none

lemma slot_set_self {t : List (Option Klass)} {idx : Nat} (h : idx < t.length) (e : Option Klass) :
    slot (t.set idx e) idx = e := by
  simp [slot, List.getD_eq_getElem?_getD, List.getElem?_set_self h]

lemma slot_set_ne {t : List (Option Klass)} {idx j : Nat} (h : idx ≠ j) (e : Option Klass) :
    slot (t.set idx e) j = slot t j := by
  simp [slot, List.getD_eq_getElem?_getD, List.getElem?_set_ne h]

lemma residents_length_le (t : List (Option Klass)) : (residents t).length ≤ t.length :=
  List.length_filterMap_le id t

lemma residents_nil_of_len_zero {t : List (Option Klass)} (h : t.length = 0) :
    residents t = [] := by
  rcases List.eq_nil_of_length_eq_zero h with rfl
  rfl

lemma residents_set_of_none {t : List (Option Klass)} {idx : Nat} (hlt : idx < t.length)
    (h : slot t idx = none) (e : Klass) :
    (↑(residents (t.set idx (some e))) : Multiset Klass) = ↑(residents t) + {e} := by
  induction t generalizing idx with
  | nil => simp at hlt
  | cons o tl ih =>
    cases idx with
    | zero =>
      have ho : o = none := by simpa [slot] using h
      subst ho
      simp only [List.set_cons_zero, residents, List.filterMap_cons, id_def]
      rw [← Multiset.cons_coe, ← Multiset.singleton_add]
      rw [add_comm]
    | succ j =>
      have hlt2 : j < tl.length := by simpa using hlt
      have h2 : slot tl j = none := by simpa [slot] using h
      have := ih hlt2 h2
      cases o with
      | none =>
        simpa only [List.set_cons_succ, residents, List.filterMap_cons, id_def] using this
      | some a =>
        unfold residents at this
        simp only [List.set_cons_succ, residents, List.filterMap_cons, id_def]
        rw [← Multiset.cons_coe, ← Multiset.cons_coe, this,
          ← Multiset.singleton_add, ← Multiset.singleton_add, add_assoc]

lemma slot_ne_none_of_full {t : List (Option Klass)} (h : t.length ≤ (residents t).length)
    {j : Nat} (hj : j < t.length) : slot t j ≠ none := by
  induction t generalizing j with
  | nil => simp at hj
  | cons o tl ih =>
    cases o with
    | none =>
      exfalso
      have h1 := residents_length_le tl
      simp only [residents, List.filterMap_cons, id_def, List.length_cons] at h h1
      omega
    | some a =>
      cases j with
      | zero => simp [slot]
      | succ j =>
        have hj2 : j < tl.length := by simpa using hj
        have h2 : tl.length ≤ (residents tl).length := by
          simp only [residents, List.filterMap_cons, id_def, List.length_cons] at h
          simpa [residents] using h
        have := ih h2 hj2
        simpa [slot] using this

lemma put_length (cfg : Config) (seed : Nat) (e : Klass) (size i : Nat) (st : PackState) :
    (put_element cfg seed e size i st).table.length = st.table.length := by
  unfold put_element
  dsimp only
  split
  · cases hprobe : st.table.getD (e.index cfg seed size) none <;> simp [hprobe]
  · rfl

lemma put_noevict (cfg : Config) (seed : Nat) (e : Klass) (size i : Nat) (st : PackState)
    (h : ∀ j x, slot st.table j = some x → Klass.index x cfg seed size = j) :
    ∀ j x, slot (put_element cfg seed e size i st).table j = some x →
      Klass.index x cfg seed size = j := by
  unfold put_element
  dsimp only
  split
  · cases hprobe : st.table.getD (e.index cfg seed size) none with
    | none =>
      simp only [hprobe]
      intro j x hx
      by_cases hj : Klass.index e cfg seed size = j
      · subst hj
        rcases Nat.lt_or_ge (Klass.index e cfg seed size) st.table.length with hlt | hge
        · rw [slot_set_self hlt] at hx
          cases hx
          rfl
        · rw [List.set_eq_of_length_le hge] at hx
          exact h _ x hx
      · rw [slot_set_ne hj] at hx
        exact h j x hx
    | some p =>
      simp only [hprobe]
      exact h
  · exact h

lemma put_monotone (cfg : Config) (seed : Nat) (e : Klass) (size i : Nat) (st : PackState) :
    ∀ j, slot st.table j ≠ none → slot (put_element cfg seed e size i st).table j ≠ none := by
  unfold put_element
  dsimp only
  split
  · cases hprobe : st.table.getD (e.index cfg seed size) none with
    | none =>
      simp only [hprobe]
      intro j hj
      by_cases hjx : Klass.index e cfg seed size = j
      · subst hjx
        rcases Nat.lt_or_ge (Klass.index e cfg seed size) st.table.length with hlt | hge
        · rw [slot_set_self hlt]
          exact Option.some_ne_none e
        · rw [List.set_eq_of_length_le hge]
          exact hj
      · rw [slot_set_ne hjx]
        exact hj
    | some p =>
      simp only [hprobe]
      exact fun j hj => hj
  · exact fun j hj => hj

lemma put_spec (cfg : Config) (seed : Nat) (e : Klass) (size i base : Nat) (st : PackState)
    (hsize : size < u32)
    (hlen : st.table.length = size)
    (hcnt : (residents st.table).length + st.tail.length = i + base)
    (hbase : 0 < size ∨ base = 0) :
    (↑(residents (put_element cfg seed e size i st).table)
        + ↑(put_element cfg seed e size i st).tail : Multiset Klass)
      = ↑(residents st.table) + ↑st.tail + {e} ∧
    (residents (put_element cfg seed e size i st).table).length
        + (put_element cfg seed e size i st).tail.length = (i + 1) + base := by
  unfold put_element
  dsimp only
  split
  · rename_i hpos
    cases hprobe : st.table.getD (e.index cfg seed size) none with
    | none =>
      simp only [hprobe]
      have hs0 : 0 < size := by
        by_contra hs
        have hz : size = 0 := by omega
        subst hz
        have hres : residents st.table = [] := residents_nil_of_len_zero hlen
        have hb0 : base = 0 := by
          rcases hbase with hb | hb
          · omega
          · exact hb
        rw [hres] at hcnt
        simp at hcnt
        omega
      have hidx : Klass.index e cfg seed size < st.table.length := by
        rw [hlen]
        exact index_lt cfg e seed size hs0 hsize
      have hmul := residents_set_of_none hidx hprobe e
      constructor
      · dsimp only
        rw [hmul]
        rw [add_right_comm]
      · dsimp only
        have hcard := congrArg Multiset.card hmul
        simp only [Multiset.coe_card, Multiset.card_add, Multiset.card_singleton] at hcard
        omega
    | some p =>
      simp only [hprobe]
      constructor
      · dsimp only
        rw [← Multiset.coe_singleton, ← Multiset.coe_add, ← add_assoc]
      · dsimp only
        simp only [List.length_append, List.length_singleton]
        omega
  · constructor
    · dsimp only
      rw [← Multiset.coe_singleton, ← Multiset.coe_add, ← add_assoc]
    · dsimp only
      simp only [List.length_append, List.length_singleton]
      omega

lemma put_tail_occupied_pre (cfg : Config) (seed : Nat) (e : Klass) (size i base : Nat)
    (st : PackState)
    (hsize : size < u32) (hs0 : 0 < size)
    (hlen : st.table.length = size)
    (hcnt : (residents st.table).length + st.tail.length = i + base)
    (hocc : ∀ x ∈ st.tail, slot st.table (Klass.index x cfg seed size) ≠ none) :
    ∀ x ∈ (put_element cfg seed e size i st).tail,
      slot st.table (Klass.index x cfg seed size) ≠ none := by
  intro x hx
  revert hx
  unfold put_element
  dsimp only
  split
  · rename_i hpos
    cases hprobe : st.table.getD (e.index cfg seed size) none with
    | none =>
      simp only [hprobe]
      intro hx
      exact hocc x hx
    | some p =>
      simp only [hprobe]
      intro hx
      rcases List.mem_append.mp hx with hx1 | hx2
      · exact hocc x hx1
      · have hxe : x = e := by simpa using hx2
        subst hxe
        intro hcontra
        rw [show slot st.table (Klass.index x cfg seed size)
            = st.table.getD (Klass.index x cfg seed size) none from rfl] at hcontra
        rw [hprobe] at hcontra
        cases hcontra
  · rename_i hpos
    intro hx
    rcases List.mem_append.mp hx with hx1 | hx2
    · exact hocc x hx1
    · have hxe : x = e := by simpa using hx2
      subst hxe
      have hfull : st.table.length ≤ (residents st.table).length := by
        have hineq : ¬ (0 : Int) < (st.tail.length : Int) + (size : Int) - (i : Int) := hpos
        omega
      exact slot_ne_none_of_full hfull (by rw [hlen]; exact index_lt cfg x seed size hs0 hsize)

lemma put_tail_occupied (cfg : Config) (seed : Nat) (e : Klass) (size i base : Nat)
    (st : PackState)
    (hsize : size < u32) (hs0 : 0 < size)
    (hlen : st.table.length = size)
    (hcnt : (residents st.table).length + st.tail.length = i + base)
    (hocc : ∀ x ∈ st.tail, slot st.table (Klass.index x cfg seed size) ≠ none) :
    ∀ x ∈ (put_element cfg seed e size i st).tail,
      slot (put_element cfg seed e size i st).table (Klass.index x cfg seed size) ≠ none :=
  fun x hx =>
    put_monotone cfg seed e size i st _
      (put_tail_occupied_pre cfg seed e size i base st hsize hs0 hlen hcnt hocc x hx)

lemma pack_from_noevict (cfg : Config) (seed size : Nat) (es : List Klass) :
    ∀ (i : Nat) (st : PackState),
      (∀ j x, slot st.table j = some x → Klass.index x cfg seed size = j) →
      ∀ j x, slot (pack_from cfg seed size es i st).table j = some x →
        Klass.index x cfg seed size = j := by
  induction es with
  | nil => intro i st h; exact h
  | cons e es ih =>
    intro i st h
    exact ih (i + 1) (put_element cfg seed e size i st) (put_noevict cfg seed e size i st h)

lemma pack_from_monotone (cfg : Config) (seed size : Nat) (es : List Klass) :
    ∀ (i : Nat) (st : PackState) (j : Nat),
      slot st.table j ≠ none →
      slot (pack_from cfg seed size es i st).table j ≠ none := by
  induction es with
  | nil => intro i st j h; exact h
  | cons e es ih =>
    intro i st j h
    exact ih (i + 1) (put_element cfg seed e size i st) j (put_monotone cfg seed e size i st j h)

lemma pack_from_spec (cfg : Config) (seed size : Nat) (hsize : size < u32) (es : List Klass) :
    ∀ (i base : Nat) (st : PackState),
      st.table.length = size →
      (residents st.table).length + st.tail.length = i + base →
      (0 < size ∨ base = 0) →
      (pack_from cfg seed size es i st).table.length = size ∧
      (residents (pack_from cfg seed size es i st).table).length
          + (pack_from cfg seed size es i st).tail.length = (i + es.length) + base ∧
      (↑(residents (pack_from cfg seed size es i st).table)
          + ↑(pack_from cfg seed size es i st).tail : Multiset Klass)
        = ↑(residents st.table) + ↑st.tail + ↑es := by
  induction es with
  | nil =>
    intro i base st hlen hcnt hbase
    have hid : pack_from cfg seed size [] i st = st := rfl
    refine ⟨by rw [hid]; exact hlen, by rw [hid]; simpa using hcnt, by rw [hid]; simp⟩
  | cons e es ih =>
    intro i base st hlen hcnt hbase
    have hput := put_spec cfg seed e size i base st hsize hlen hcnt hbase
    have hlen2 : (put_element cfg seed e size i st).table.length = size := by
      rw [put_length]; exact hlen
    have hrec := ih (i + 1) base (put_element cfg seed e size i st) hlen2 hput.2 hbase
    have hstep : pack_from cfg seed size (e :: es) i st
        = pack_from cfg seed size es (i + 1) (put_element cfg seed e size i st) := rfl
    rw [hstep]
    refine ⟨hrec.1, ?_, ?_⟩
    · have hc := hrec.2.1
      simp only [List.length_cons]
      omega
    · rw [hrec.2.2, hput.1]
      have hco : (↑(e :: es) : Multiset Klass) = {e} + ↑es := by
        rw [Multiset.singleton_add, Multiset.cons_coe]
      rw [hco, add_assoc]

lemma pack_from_tail_occupied (cfg : Config) (seed size : Nat)
    (hsize : size < u32) (hs0 : 0 < size) (es : List Klass) :
    ∀ (i base : Nat) (st : PackState),
      st.table.length = size →
      (residents st.table).length + st.tail.length = i + base →
      (∀ x ∈ st.tail, slot st.table (Klass.index x cfg seed size) ≠ none) →
      ∀ x ∈ (pack_from cfg seed size es i st).tail,
        slot (pack_from cfg seed size es i st).table (Klass.index x cfg seed size) ≠ none := by
  induction es with
  | nil => intro i base st hlen hcnt hocc; exact hocc
  | cons e es ih =>
    intro i base st hlen hcnt hocc
    have hput := put_spec cfg seed e size i base st hsize hlen hcnt (Or.inl hs0)
    have hlen2 : (put_element cfg seed e size i st).table.length = size := by
      rw [put_length]; exact hlen
    exact ih (i + 1) base (put_element cfg seed e size i st) hlen2 hput.2
      (put_tail_occupied cfg seed e size i base st hsize hs0 hlen hcnt hocc)

lemma init_pack_table_length (size : Nat) : (init_pack size).table.length = size := by
  simp [init_pack]

lemma residents_init_pack (size : Nat) : residents (init_pack size).table = [] := by
  show List.filterMap id (List.replicate size none) = []
  rw [List.filterMap_replicate_of_none rfl]

lemma slot_init_pack (size j : Nat) : slot (init_pack size).table j = none := by
  simp only [init_pack, slot, List.getD_eq_getElem?_getD, List.getElem?_replicate]
  split <;> rfl

lemma init_pack_count (size : Nat) :
    (residents (init_pack size).table).length + (init_pack size).tail.length = 0 + 0 := by
  rw [residents_init_pack]
  rfl

lemma pack_noevict_init (cfg : Config) (seed size : Nat) (elements : List Klass) :
    ∀ i k, slot (pack_table cfg seed size elements (init_pack size)).table i = some k →
      Klass.index k cfg seed size = i := by
  apply pack_from_noevict
  intro j x hx
  rw [slot_init_pack] at hx
  cases hx

/-- C3: no-eviction invariant.  For every configuration, seed, table size
and input element sequence, every non-null resident `table[i]` of the
packed table sits at its own natural slot:
`Klass::index(table[i], seed, size) = i`.  A collision appends the later
element to the tail (`put_element`); it never moves a resident. -/
theorem C3_no_eviction (cfg : Config) (seed size : Nat) (elements : List Klass) :
    ∀ i k, slot (pack_table cfg seed size elements (init_pack size)).table i = some k →
      Klass.index k cfg seed size = i :=
  pack_noevict_init cfg seed size elements

/-- Witness for C3: the resident of slot 0 of a concrete packed table
hashes to slot 0. -/
theorem C3_no_eviction_witness :
    slot (pack_table cfgM 7 2 [⟨1, 10⟩, ⟨2, 20⟩, ⟨3, 30⟩] (init_pack 2)).table 0
        = some ⟨1, 10⟩ ∧
      Klass.index ⟨1, 10⟩ cfgM 7 2 = 0 :=
  ⟨by decide,
    C3_no_eviction cfgM 7 2 [⟨1, 10⟩, ⟨2, 20⟩, ⟨3, 30⟩] 0 ⟨1, 10⟩ (by decide)⟩

/-- C4: coverage.  For every configuration, seed, `uint` table size and
duplicate-free input sequence, after packing the number of non-null table
slots plus the tail length equals the number of input elements, and every
input element occurs exactly once across the two zones. -/
theorem C4_coverage (cfg : Config) (seed size : Nat) (elements : List Klass)
    (hnodup : elements.Nodup) (hsize : size < u32) :
    (residents (pack_table cfg seed size elements (init_pack size)).table).length
        + (pack_table cfg seed size elements (init_pack size)).tail.length
      = elements.length ∧
    ∀ e ∈ elements,
      (residents (pack_table cfg seed size elements (init_pack size)).table).count e
          + (pack_table cfg seed size elements (init_pack size)).tail.count e = 1 := by
  have hspec := pack_from_spec cfg seed size hsize elements 0 0 (init_pack size)
    (init_pack_table_length size) (init_pack_count size) (Or.inr rfl)
  refine ⟨by simpa using hspec.2.1, fun e he => ?_⟩
  have hmul := hspec.2.2
  rw [residents_init_pack, show (init_pack size).tail = ([] : List Klass) from rfl] at hmul
  have hcnt := congrArg (Multiset.count e) hmul
  simp only [Multiset.count_add, Multiset.coe_count, List.count_nil] at hcnt
  have hone : elements.count e = 1 := List.count_eq_one_of_mem hnodup he
  rw [show pack_table cfg seed size elements (init_pack size)
      = pack_from cfg seed size elements 0 (init_pack size) from rfl]
  omega

lemma pack2_tail_occupied (cfg : Config) (seed size : Nat)
    (primaries secondaries : List Klass) (hs0 : 0 < size) (hsize : size < u32) :
    ∀ x ∈ (pack_table2 cfg seed size primaries secondaries (init_pack size)).tail,
      slot (pack_table2 cfg seed size primaries secondaries (init_pack size)).table
          (Klass.index x cfg seed size) ≠ none := by
  have hspec1 := pack_from_spec cfg seed size hsize primaries 0 0 (init_pack size)
    (init_pack_table_length size) (init_pack_count size) (Or.inr rfl)
  have hocc1 := pack_from_tail_occupied cfg seed size hsize hs0 primaries 0 0 (init_pack size)
    (init_pack_table_length size) (init_pack_count size)
    (by intro x hx; simp [init_pack] at hx)
  have hcnt1 : (residents (pack_table cfg seed size primaries (init_pack size)).table).length
      + (pack_table cfg seed size primaries (init_pack size)).tail.length
      = 0 + primaries.length := by
    have := hspec1.2.1
    simpa using this
  exact pack_from_tail_occupied cfg seed size hsize hs0 secondaries 0 primaries.length
    (pack_table cfg seed size primaries (init_pack size)) hspec1.1 hcnt1 hocc1

/-- C9: tail-conflict invariant.  After any two-group packing with a
non-empty slot zone, every tail element's natural slot holds a non-null
resident (the losing slot is always occupied), which is exactly the
`assert(table->at(primary_idx) != nullptr)` inside `compute_conflicts`. -/
theorem C9_tail_conflict (cfg : Config) (seed size : Nat)
    (primaries secondaries : List Klass) (hs0 : 0 < size) (hsize : size < u32) :
    ∀ x ∈ (pack_table2 cfg seed size primaries secondaries (init_pack size)).tail,
      slot (pack_table2 cfg seed size primaries secondaries (init_pack size)).table
          (Klass.index x cfg seed size) ≠ none :=
  pack2_tail_occupied cfg seed size primaries secondaries hs0 hsize

/-- Witness for C4: three distinct classes packed into a table of size 2
with the modulo indexing strategy. -/
theorem C4_coverage_witness :
    ([⟨1, 10⟩, ⟨2, 20⟩, ⟨3, 30⟩] : List Klass).Nodup ∧ 2 < u32 ∧
      ((residents (pack_table cfgM 7 2 [⟨1, 10⟩, ⟨2, 20⟩, ⟨3, 30⟩] (init_pack 2)).table).length
          + (pack_table cfgM 7 2 [⟨1, 10⟩, ⟨2, 20⟩, ⟨3, 30⟩] (init_pack 2)).tail.length
        = ([⟨1, 10⟩, ⟨2, 20⟩, ⟨3, 30⟩] : List Klass).length ∧
      ∀ e ∈ ([⟨1, 10⟩, ⟨2, 20⟩, ⟨3, 30⟩] : List Klass),
        (residents (pack_table cfgM 7 2 [⟨1, 10⟩, ⟨2, 20⟩, ⟨3, 30⟩] (init_pack 2)).table).count e
            + (pack_table cfgM 7 2 [⟨1, 10⟩, ⟨2, 20⟩, ⟨3, 30⟩] (init_pack 2)).tail.count e = 1) :=
  ⟨by decide, by decide,
    C4_coverage cfgM 7 2 [⟨1, 10⟩, ⟨2, 20⟩, ⟨3, 30⟩] (by decide) (by decide)⟩

/-- Witness for C9: one primary and two secondaries forced through a
single-slot table, so two elements land in the tail. -/
theorem C9_tail_conflict_witness :
    0 < 1 ∧ 1 < u32 ∧
      ∀ x ∈ (pack_table2 cfgM 5 1 [⟨1, 10⟩] [⟨2, 20⟩, ⟨3, 30⟩] (init_pack 1)).tail,
        slot (pack_table2 cfgM 5 1 [⟨1, 10⟩] [⟨2, 20⟩, ⟨3, 30⟩] (init_pack 1)).table
            (Klass.index x cfgM 5 1) ≠ none :=
  ⟨by decide, by decide,
    C9_tail_conflict cfgM 5 1 [⟨1, 10⟩] [⟨2, 20⟩, ⟨3, 30⟩] (by decide) (by decide)⟩

/-! ### Lookup lemmas -/

lemma mem_of_getD {l : List (Option Klass)} {i : Nat} {k : Klass}
    (h : l.getD i none = some k) : some k ∈ l := by
  rw [List.getD_eq_getElem?_getD] at h
  cases hx : l[i]? with
  | none => rw [hx] at h; cases h
  | some v =>
    rw [hx] at h
    simp only [Option.getD_some] at h
    subst h
    exact List.getElem?_mem hx

lemma mem_of_slot {l : List (Option Klass)} {i : Nat} {k : Klass}
    (h : slot l i = some k) : some k ∈ l := mem_of_getD h

lemma slot_append_left {l1 l2 : List (Option Klass)} {i : Nat} (h : i < l1.length) :
    slot (l1 ++ l2) i = slot l1 i := by
  simp [slot, List.getD_eq_getElem?_getD, List.getElem?_append_left h]

lemma slot_append_right {l1 l2 : List (Option Klass)} {i : Nat} (h : l1.length ≤ i) :
    slot (l1 ++ l2) i = slot l2 (i - l1.length) := by
  simp [slot, List.getD_eq_getElem?_getD, List.getElem?_append_right h]

lemma slot_of_getElem {l : List (Option Klass)} {i : Nat} (h : i < l.length) :
    slot l i = l[i] := by
  simp [slot, List.getD_eq_getElem?_getD, List.getElem?_eq_getElem h]

lemma exists_slot_of_mem {l : List (Option Klass)} {k : Klass} (h : some k ∈ l) :
    ∃ pos, pos < l.length ∧ slot l pos = some k := by
  obtain ⟨n, hn, he⟩ := List.getElem_of_mem h
  exact ⟨n, hn, by rw [slot_of_getElem hn, he]⟩

lemma mem_of_tail_contains {st : KlassState} {base : Nat} {k : Klass}
    (h : tail_contains st base k = true) : some k ∈ st.storage := by
  unfold tail_contains at h
  rw [List.any_eq_true] at h
  obtain ⟨e, he, heq⟩ := h
  have : e = some k := by simpa using heq
  subst this
  exact List.mem_of_mem_drop he

lemma tail_contains_of_slot {st : KlassState} {base pos : Nat} {k : Klass}
    (hge : base ≤ pos) (h : slot st.storage pos = some k) :
    tail_contains st base k = true := by
  unfold tail_contains
  rw [List.any_eq_true]
  refine ⟨some k, ?_, by simp⟩
  have hmem : some k ∈ st.storage.drop base := by
    have hs : slot (st.storage.drop base) (pos - base) = some k := by
      rw [slot, List.getD_eq_getElem?_getD, List.getElem?_drop]
      rw [show base + (pos - base) = pos by omega]
      rw [← List.getD_eq_getElem?_getD, ← slot, h]
    exact mem_of_slot hs
  exact hmem

lemma linear_sound {st : KlassState} {k : Klass}
    (h : search_secondary_supers_linear st k = true) : some k ∈ st.storage := by
  unfold search_secondary_supers_linear at h
  rw [List.any_eq_true] at h
  obtain ⟨e, he, heq⟩ := h
  have : e = some k := by simpa using heq
  subst this
  exact he

lemma linear_complete {st : KlassState} {k : Klass}
    (h : some k ∈ st.storage) : search_secondary_supers_linear st k = true := by
  unfold search_secondary_supers_linear
  rw [List.any_eq_true]
  exact ⟨some k, h, by simp⟩

lemma search_table_sound (cfg : Config) (st : KlassState) (k : Klass)
    (h : search_secondary_supers_table cfg st k = true) : some k ∈ st.storage := by
  unfold search_secondary_supers_table at h
  dsimp only at h
  split at h
  · rename_i hpos
    cases hprobe : secondary_supers_at st
        (0 + Klass.index k cfg (st.seed % u32) (secondary_supers_table_size cfg st)) with
    | none => rw [hprobe] at h; cases h
    | some p =>
      rw [hprobe] at h
      dsimp only at h
      by_cases hpk : p = k
      · subst hpk
        exact mem_of_getD hprobe
      · rw [if_neg hpk] at h
        split at h
        · cases hq : secondary_supers_at st
              (0 + secondary_supers_table_size cfg st +
                Klass.index k cfg
                  (if cfg.useNewCode4 then st.seed % u32 else st.seed >>> 32 % u32)
                  (Klass.seed2size cfg (st.seed >>> 32 % u32))) with
          | none => rw [hq] at h; cases h
          | some s =>
            rw [hq] at h
            dsimp only at h
            by_cases hsk : s = k
            · subst hsk
              exact mem_of_getD hq
            · rw [if_neg hsk] at h
              exact mem_of_tail_contains h
        · exact mem_of_tail_contains h
  · exact mem_of_tail_contains h

/-- C2: negative correctness.  For every class `X` that is not `C` and is
not present anywhere in `C`'s secondary-supers storage,
`search_secondary_supers(C, X)` returns `false` — in particular the empty
slot early exit only ever answers `false` for non-stored classes. -/
theorem C2_negative_correctness (cfg : Config) (c : Klass) (st : KlassState) (k : Klass)
    (hck : c ≠ k) (hmem : some k ∉ st.storage) :
    search_secondary_supers cfg c st k = false := by
  unfold search_secondary_supers
  rw [if_neg hck]
  split
  · cases hb : search_secondary_supers_table cfg st k
    · rfl
    · exact absurd (search_table_sound cfg st k hb) hmem
  · cases hb : search_secondary_supers_linear st k
    · rfl
    · exact absurd (linear_sound hb) hmem

/-- Witness for C2: a class absent from a two-entry storage. -/
theorem C2_negative_correctness_witness :
    (⟨5, 50⟩ : Klass) ≠ ⟨2, 20⟩ ∧
      some (⟨2, 20⟩ : Klass) ∉ [some (⟨1, 10⟩ : Klass), none] ∧
      search_secondary_supers cfgM ⟨5, 50⟩ ⟨0, [some ⟨1, 10⟩, none]⟩ ⟨2, 20⟩ = false :=
  ⟨by decide, by decide,
    C2_negative_correctness cfgM ⟨5, 50⟩ ⟨0, [some ⟨1, 10⟩, none]⟩ ⟨2, 20⟩
      (by decide) (by decide)⟩

/-- C8: degenerate size equivalence.  When both decoded zone sizes are
zero (`table_size == 0`; the secondary zone is empty whenever the primary
one is, per the assert in `search_secondary_supers_table`), the table
probe is exactly the linear scan of the stored element list, i.e. plain
set-membership of the candidate in the storage. -/
theorem C8_degenerate_linear (cfg : Config) (st : KlassState) (k : Klass)
    (hp : Klass.seed2size cfg (st.seed % u32) = 0)
    (hs : Klass.seed2size cfg (st.seed >>> 32 % u32) = 0) :
    search_secondary_supers_table cfg st k = search_secondary_supers_linear st k ∧
      (search_secondary_supers_linear st k = true ↔ some k ∈ st.storage) := by
  constructor
  · unfold search_secondary_supers_table
    dsimp only
    rw [show secondary_supers_table_size cfg st
        = Klass.seed2size cfg (st.seed % u32) from rfl, hp, hs]
    rw [if_neg (by omega)]
    unfold tail_contains search_secondary_supers_linear
    simp
  · exact ⟨fun h => linear_sound h, fun h => linear_complete h⟩

/-- Witness for C8: a tail-only state with two stored classes. -/
theorem C8_degenerate_linear_witness :
    Klass.seed2size cfgM ((0 : Nat) % u32) = 0 ∧
      Klass.seed2size cfgM ((0 : Nat) >>> 32 % u32) = 0 ∧
      (search_secondary_supers_table cfgM ⟨0, [some ⟨1, 10⟩, some ⟨2, 20⟩]⟩ ⟨2, 20⟩
          = search_secondary_supers_linear ⟨0, [some ⟨1, 10⟩, some ⟨2, 20⟩]⟩ ⟨2, 20⟩ ∧
        (search_secondary_supers_linear ⟨0, [some ⟨1, 10⟩, some ⟨2, 20⟩]⟩ ⟨2, 20⟩ = true ↔
          some (⟨2, 20⟩ : Klass) ∈ [some (⟨1, 10⟩ : Klass), some ⟨2, 20⟩])) :=
  ⟨by decide, by decide,
    C8_degenerate_linear cfgM ⟨0, [some ⟨1, 10⟩, some ⟨2, 20⟩]⟩ ⟨2, 20⟩ (by decide) (by decide)⟩

/-- Completeness of the table probe against a well-formed storage: the
hypotheses are exactly the placement invariants the packer establishes
(and that `Klass::verify_on` checks): zone residents sit at their natural
slots, elements stored past a non-empty zone have their natural slot in
that zone occupied, and an empty primary zone forces an empty secondary
zone. -/
lemma search_table_complete (cfg : Config) (st : KlassState) (k : Klass)
    (psize ssize : Nat)
    (hpsz : secondary_supers_table_size cfg st = psize)
    (hssz : Klass.seed2size cfg (st.seed >>> 32 % u32) = ssize)
    (hdeg : psize = 0 → ssize = 0)
    (hprim : ∀ i x, i < psize → slot st.storage i = some x →
      Klass.index x cfg (st.seed % u32) psize = i)
    (hsec : ∀ j x, j < ssize → slot st.storage (psize + j) = some x →
      Klass.index x cfg (if cfg.useNewCode4 then st.seed % u32 else st.seed >>> 32 % u32)
          ssize = j)
    (hocc1 : 0 < psize → ∀ x pos, psize ≤ pos → slot st.storage pos = some x →
      slot st.storage (Klass.index x cfg (st.seed % u32) psize) ≠ none)
    (hocc2 : 0 < ssize → ∀ x pos, psize + ssize ≤ pos → slot st.storage pos = some x →
      slot st.storage
          (psize + Klass.index x cfg
            (if cfg.useNewCode4 then st.seed % u32 else st.seed >>> 32 % u32) ssize)
        ≠ none)
    (hin : some k ∈ st.storage) :
    search_secondary_supers_table cfg st k = true := by
  obtain ⟨pos, hposlt, hpos⟩ := exists_slot_of_mem hin
  unfold search_secondary_supers_table
  dsimp only
  rw [hpsz, hssz]
  by_cases hP : 0 < psize
  · rw [if_pos hP]
    simp only [Nat.zero_add]
    cases hprobe : secondary_supers_at st (Klass.index k cfg (st.seed % u32) psize) with
    | none =>
      exfalso
      rcases Nat.lt_or_ge pos psize with hzone | hzone
      · have hidx := hprim pos k hzone hpos
        rw [← hidx] at hpos
        rw [show secondary_supers_at st (Klass.index k cfg (st.seed % u32) psize)
            = slot st.storage (Klass.index k cfg (st.seed % u32) psize) from rfl] at hprobe
        rw [hpos] at hprobe
        cases hprobe
      · exact hocc1 hP k pos hzone hpos hprobe
    | some p =>
      dsimp only
      by_cases hpk : p = k
      · rw [if_pos hpk]
      · rw [if_neg hpk]
        have hzone1 : psize ≤ pos := by
          rcases Nat.lt_or_ge pos psize with hz | hz
          · exfalso
            have hidx := hprim pos k hz hpos
            rw [← hidx] at hpos
            rw [show secondary_supers_at st (Klass.index k cfg (st.seed % u32) psize)
                = slot st.storage (Klass.index k cfg (st.seed % u32) psize) from rfl] at hprobe
            rw [hpos] at hprobe
            cases hprobe
            exact hpk rfl
          · exact hz
        by_cases hS : 0 < ssize
        · rw [if_pos hS]
          cases hq : secondary_supers_at st
              (psize + Klass.index k cfg
                (if cfg.useNewCode4 then st.seed % u32 else st.seed >>> 32 % u32) ssize) with
          | none =>
            exfalso
            rcases Nat.lt_or_ge pos (psize + ssize) with hz2 | hz2
            · have hj : pos - psize < ssize := by omega
              have hslot : slot st.storage (psize + (pos - psize)) = some k := by
                rw [show psize + (pos - psize) = pos by omega]
                exact hpos
              have hidx := hsec (pos - psize) k hj hslot
              rw [show secondary_supers_at st (psize + Klass.index k cfg
                  (if cfg.useNewCode4 then st.seed % u32 else st.seed >>> 32 % u32) ssize)
                  = slot st.storage (psize + Klass.index k cfg
                    (if cfg.useNewCode4 then st.seed % u32 else st.seed >>> 32 % u32) ssize)
                  from rfl] at hq
              rw [hidx] at hq
              rw [show psize + (pos - psize) = pos by omega] at hq
              rw [hpos] at hq
              cases hq
            · exact hocc2 hS k pos hz2 hpos hq
          | some s =>
            dsimp only
            by_cases hsk : s = k
            · rw [if_pos hsk]
            · rw [if_neg hsk]
              have hzone2 : psize + ssize ≤ pos := by
                rcases Nat.lt_or_ge pos (psize + ssize) with hz2 | hz2
                · exfalso
                  have hj : pos - psize < ssize := by omega
                  have hslot : slot st.storage (psize + (pos - psize)) = some k := by
                    rw [show psize + (pos - psize) = pos by omega]
                    exact hpos
                  have hidx := hsec (pos - psize) k hj hslot
                  rw [show secondary_supers_at st (psize + Klass.index k cfg
                      (if cfg.useNewCode4 then st.seed % u32 else st.seed >>> 32 % u32) ssize)
                      = slot st.storage (psize + Klass.index k cfg
                        (if cfg.useNewCode4 then st.seed % u32 else st.seed >>> 32 % u32) ssize)
                      from rfl] at hq
                  rw [hidx] at hq
                  rw [show psize + (pos - psize) = pos by omega] at hq
                  rw [hpos] at hq
                  cases hq
                  exact hsk rfl
                · exact hz2
              exact tail_contains_of_slot hzone2 hpos
        · rw [if_neg hS]
          have hs0 : ssize = 0 := by omega
          exact tail_contains_of_slot (by omega) hpos
  · rw [if_neg hP]
    have hp0 : psize = 0 := by omega
    have hs0 : ssize = 0 := hdeg hp0
    exact tail_contains_of_slot (by omega) hpos

/-! ### Materialized-table placement (C1) -/

lemma seed_combine_eq_add (seed1 seed2 : Nat) (h1 : seed1 < u32) :
    (seed2 <<< 32) ||| seed1 = 2 ^ 32 * seed2 + seed1 := by
  have h := Nat.mul_add_lt_is_or (b := seed1) (i := 32) (by rw [← u32_eq]; exact h1) seed2
  have hsh : seed2 <<< 32 = 2 ^ 32 * seed2 := by
    rw [Nat.shiftLeft_eq, Nat.mul_comm]
  rw [hsh, ← h]

lemma seed_combine_lo (seed1 seed2 : Nat) (h1 : seed1 < u32) :
    ((seed2 <<< 32) ||| seed1) % u32 = seed1 := by
  rw [seed_combine_eq_add seed1 seed2 h1, u32_eq, Nat.mul_add_mod,
    Nat.mod_eq_of_lt (by rw [← u32_eq]; exact h1)]

lemma seed_combine_hi (seed1 seed2 : Nat) (h1 : seed1 < u32) (h2 : seed2 < u32) :
    ((seed2 <<< 32) ||| seed1) >>> 32 % u32 = seed2 := by
  rw [seed_combine_eq_add seed1 seed2 h1, Nat.shiftRight_eq_div_pow]
  rw [Nat.mul_add_div (Nat.pos_pow_of_pos 32 (by norm_num))]
  rw [Nat.div_eq_of_lt (by rw [← u32_eq]; exact h1)]
  rw [Nat.add_zero, Nat.mod_eq_of_lt h2]

lemma pack_from_length (cfg : Config) (seed size : Nat) (es : List Klass) :
    ∀ (i : Nat) (st : PackState),
      (pack_from cfg seed size es i st).table.length = st.table.length := by
  induction es with
  | nil => intro i st; rfl
  | cons e es ih =>
    intro i st
    rw [show pack_from cfg seed size (e :: es) i st
        = pack_from cfg seed size es (i + 1) (put_element cfg seed e size i st) from rfl]
    rw [ih, put_length]

lemma pack2_table_length (cfg : Config) (seed size : Nat) (primaries secondaries : List Klass) :
    (pack_table2 cfg seed size primaries secondaries (init_pack size)).table.length = size := by
  show (pack_from cfg seed size secondaries 0
      (pack_from cfg seed size primaries 0 (init_pack size))).table.length = size
  rw [pack_from_length, pack_from_length, init_pack_table_length]

lemma pack2_noevict (cfg : Config) (seed size : Nat) (primaries secondaries : List Klass) :
    ∀ i k, slot (pack_table2 cfg seed size primaries secondaries (init_pack size)).table i
        = some k → Klass.index k cfg seed size = i :=
  pack_from_noevict cfg seed size secondaries 0 _
    (pack_from_noevict cfg seed size primaries 0 (init_pack size)
      (fun _ x hx => by rw [slot_init_pack] at hx; cases hx))

lemma pack2_multiset (cfg : Config) (seed size : Nat) (hsize : size < u32)
    (primaries secondaries : List Klass) (hbase : 0 < size ∨ primaries = []) :
    (↑(residents (pack_table2 cfg seed size primaries secondaries (init_pack size)).table)
        + ↑(pack_table2 cfg seed size primaries secondaries (init_pack size)).tail
      : Multiset Klass)
      = ↑primaries + ↑secondaries := by
  have hspec1 := pack_from_spec cfg seed size hsize primaries 0 0 (init_pack size)
    (init_pack_table_length size) (init_pack_count size) (Or.inr rfl)
  have hcnt1 : (residents (pack_table cfg seed size primaries (init_pack size)).table).length
      + (pack_table cfg seed size primaries (init_pack size)).tail.length
      = 0 + primaries.length := by
    have := hspec1.2.1
    simpa using this
  have hbase2 : 0 < size ∨ primaries.length = 0 := by
    rcases hbase with hb | hb
    · exact Or.inl hb
    · exact Or.inr (by rw [hb]; rfl)
  have hspec2 := pack_from_spec cfg seed size hsize secondaries 0 primaries.length
    (pack_table cfg seed size primaries (init_pack size)) hspec1.1 hcnt1 hbase2
  have hm1 := hspec1.2.2
  rw [residents_init_pack, show (init_pack size).tail = ([] : List Klass) from rfl] at hm1
  simp only [Multiset.coe_nil, zero_add, add_zero] at hm1
  have hm2 := hspec2.2.2
  rw [show pack_table2 cfg seed size primaries secondaries (init_pack size)
      = pack_from cfg seed size secondaries 0
        (pack_table cfg seed size primaries (init_pack size)) from rfl]
  rw [hm2]
  rw [show pack_table cfg seed size primaries (init_pack size)
      = pack_from cfg seed size primaries 0 (init_pack size) from rfl]
  rw [hm1]

lemma pack1_multiset (cfg : Config) (seed size : Nat) (hsize : size < u32)
    (elements : List Klass) :
    (↑(residents (pack_table cfg seed size elements (init_pack size)).table)
        + ↑(pack_table cfg seed size elements (init_pack size)).tail : Multiset Klass)
      = ↑elements := by
  have hspec := pack_from_spec cfg seed size hsize elements 0 0 (init_pack size)
    (init_pack_table_length size) (init_pack_count size) (Or.inr rfl)
  have hm := hspec.2.2
  rw [residents_init_pack, show (init_pack size).tail = ([] : List Klass) from rfl] at hm
  simpa using hm

lemma pack1_tail_occupied (cfg : Config) (seed size : Nat) (hsize : size < u32)
    (hs0 : 0 < size) (elements : List Klass) :
    ∀ x ∈ (pack_table cfg seed size elements (init_pack size)).tail,
      slot (pack_table cfg seed size elements (init_pack size)).table
          (Klass.index x cfg seed size) ≠ none :=
  pack_from_tail_occupied cfg seed size hsize hs0 elements 0 0 (init_pack size)
    (init_pack_table_length size) (init_pack_count size)
    (by intro x hx; simp [init_pack] at hx)

lemma mem_residents {t : List (Option Klass)} {x : Klass} :
    x ∈ residents t ↔ some x ∈ t := by
  unfold residents
  rw [List.mem_filterMap]
  constructor
  · rintro ⟨a, ha, hax⟩
    rw [show id a = a from rfl] at hax
    rw [hax] at ha
    exact ha
  · intro h
    exact ⟨some x, h, rfl⟩

lemma build_placement_aux (cfg : Config) (seed1 size1 seed2 size2 : Nat)
    (primaries secondaries : List Klass) (effseed : Nat) (st1 st2 : PackState)
    (heff : effseed = if cfg.useNewCode4 then seed1 else seed2)
    (hst1 : st1 = pack_table2 cfg seed1 size1 primaries secondaries (init_pack size1))
    (hst2 : st2 = pack_table cfg effseed size2 st1.tail (init_pack size2))
    (h1u : seed1 < u32) (h2u : seed2 < u32)
    (hs1u : size1 < u32) (hs2u : size2 < u32)
    (hsz1 : Klass.seed2size cfg seed1 = size1)
    (hsz2 : Klass.seed2size cfg seed2 = size2)
    (hdeg : size1 = 0 → primaries = [] ∧ size2 = 0) :
    ∀ S, some S ∈ st1.table ++ (st2.table ++ st2.tail.map some) →
      search_secondary_supers_table cfg
        ⟨(seed2 <<< 32) ||| seed1, st1.table ++ (st2.table ++ st2.tail.map some)⟩ S
        = true := by
  intro S hS
  have hA : st1.table.length = size1 := by
    rw [hst1]; exact pack2_table_length cfg seed1 size1 primaries secondaries
  have hB : st2.table.length = size2 := by
    rw [hst2]
    show (pack_from cfg effseed size2 st1.tail 0 (init_pack size2)).table.length = size2
    rw [pack_from_length, init_pack_table_length]
  have hlo : ((seed2 <<< 32) ||| seed1) % u32 = seed1 := seed_combine_lo seed1 seed2 h1u
  have hhi : ((seed2 <<< 32) ||| seed1) >>> 32 % u32 = seed2 := seed_combine_hi seed1 seed2 h1u h2u
  have htail1 : ∀ x pos, size1 ≤ pos →
      slot (st1.table ++ (st2.table ++ st2.tail.map some)) pos = some x → x ∈ st1.tail := by
    intro x pos hge hxs
    rw [slot_append_right (by omega : st1.table.length ≤ pos)] at hxs
    have hmem : some x ∈ st2.table ++ st2.tail.map some := mem_of_slot hxs
    have hm2 := pack1_multiset cfg effseed size2 hs2u st1.tail
    rw [← hst2] at hm2
    rcases List.mem_append.mp hmem with hm | hm
    · have hxr : x ∈ residents st2.table := mem_residents.mpr hm
      have hx2 : x ∈ (↑(residents st2.table) + ↑st2.tail : Multiset Klass) := by
        rw [Multiset.mem_add]
        exact Or.inl (by simpa using hxr)
      rw [hm2] at hx2
      simpa using hx2
    · have hxt : x ∈ st2.tail := by
        rcases List.mem_map.mp hm with ⟨y, hy, hyx⟩
        cases hyx
        exact hy
      have hx2 : x ∈ (↑(residents st2.table) + ↑st2.tail : Multiset Klass) := by
        rw [Multiset.mem_add]
        exact Or.inr (by simpa using hxt)
      rw [hm2] at hx2
      simpa using hx2
  apply search_table_complete cfg _ S size1 size2
  · show Klass.seed2size cfg (((seed2 <<< 32) ||| seed1) % u32) = size1
    rw [hlo, hsz1]
  · show Klass.seed2size cfg (((seed2 <<< 32) ||| seed1) >>> 32 % u32) = size2
    rw [hhi, hsz2]
  · intro hz
    exact (hdeg hz).2
  · -- primary zone residents sit at their natural slot
    intro i x hi hx
    dsimp only at hx ⊢
    rw [slot_append_left (by omega : i < st1.table.length)] at hx
    rw [hlo]
    rw [hst1] at hx
    exact pack2_noevict cfg seed1 size1 primaries secondaries i x hx
  · -- secondary zone residents sit at their natural slot
    intro j x hj hx
    dsimp only at hx ⊢
    rw [slot_append_right (by omega : st1.table.length ≤ size1 + j)] at hx
    rw [show size1 + j - st1.table.length = j by omega] at hx
    rw [slot_append_left (by omega : j < st2.table.length)] at hx
    rw [hlo, hhi, ← heff]
    rw [hst2] at hx
    exact pack_from_noevict cfg effseed size2 st1.tail 0 (init_pack size2)
      (fun _ y hy => by rw [slot_init_pack] at hy; cases hy) j x hx
  · -- elements stored past the primary zone have an occupied primary slot
    intro hP x pos hge hx
    dsimp only at hx ⊢
    rw [hlo]
    have hxt : x ∈ st1.tail := htail1 x pos (by omega) hx
    have hocc : slot st1.table (Klass.index x cfg seed1 size1) ≠ none := by
      rw [hst1]
      rw [hst1] at hxt
      exact pack2_tail_occupied cfg seed1 size1 primaries secondaries hP hs1u x hxt
    have hidx : Klass.index x cfg seed1 size1 < st1.table.length := by
      rw [hA]
      exact index_lt cfg x seed1 size1 hP hs1u
    rw [slot_append_left hidx]
    exact hocc
  · -- tail elements have an occupied secondary slot
    intro hS2 x pos hge hx
    dsimp only at hx ⊢
    rw [hlo, hhi, ← heff]
    rw [slot_append_right (by omega : st1.table.length ≤ pos)] at hx
    rw [slot_append_right (by omega : st2.table.length ≤ pos - st1.table.length)] at hx
    have hxt : x ∈ st2.tail := by
      have hmem : some x ∈ st2.tail.map some := mem_of_slot hx
      rcases List.mem_map.mp hmem with ⟨y, hy, hyx⟩
      cases hyx
      exact hy
    have hocc : slot st2.table (Klass.index x cfg effseed size2) ≠ none := by
      rw [hst2]
      rw [hst2] at hxt
      exact pack1_tail_occupied cfg effseed size2 hs2u hS2 st1.tail x hxt
    have hidx : Klass.index x cfg effseed size2 < st2.table.length := by
      rw [hB]
      exact index_lt cfg x effseed size2 hS2 hs2u
    rw [slot_append_right (by omega : st1.table.length ≤ size1 + Klass.index x cfg effseed size2)]
    rw [show size1 + Klass.index x cfg effseed size2 - st1.table.length
        = Klass.index x cfg effseed size2 by omega]
    rw [slot_append_left hidx]
    exact hocc
  · exact hS

/-- C1: placement correctness.  For every materialized outcome of the
builder (any seeds and zone sizes consistent with the stored seed word
and with the degenerate-size invariants), every class stored anywhere in
the secondary-supers storage — primary slot zone, secondary slot zone or
tail — is found by `search_secondary_supers_table`. -/
theorem C1_placement (cfg : Config) (seed1 size1 seed2 size2 : Nat)
    (primaries secondaries : List Klass)
    (h1u : seed1 < u32) (h2u : seed2 < u32)
    (hs1u : size1 < u32) (hs2u : size2 < u32)
    (hsz1 : Klass.seed2size cfg seed1 = size1)
    (hsz2 : Klass.seed2size cfg seed2 = size2)
    (hdeg : size1 = 0 → primaries = [] ∧ size2 = 0) :
    ∀ S, some S ∈ (build_secondary_supers cfg seed1 size1 seed2 size2
        primaries secondaries).storage →
      search_secondary_supers_table cfg
        (build_secondary_supers cfg seed1 size1 seed2 size2 primaries secondaries) S
        = true := by
  intro S hS
  have hb : build_secondary_supers cfg seed1 size1 seed2 size2 primaries secondaries
      = ⟨(seed2 <<< 32) ||| seed1,
        (pack_table2 cfg seed1 size1 primaries secondaries (init_pack size1)).table ++
          ((pack_table cfg (if cfg.useNewCode4 then seed1 else seed2) size2
              (pack_table2 cfg seed1 size1 primaries secondaries (init_pack size1)).tail
              (init_pack size2)).table ++
            (pack_table cfg (if cfg.useNewCode4 then seed1 else seed2) size2
              (pack_table2 cfg seed1 size1 primaries secondaries (init_pack size1)).tail
              (init_pack size2)).tail.map some)⟩ := by
    unfold build_secondary_supers create_secondary_supers_table
    dsimp only
    rw [List.append_assoc]
  rw [hb] at hS ⊢
  exact build_placement_aux cfg seed1 size1 seed2 size2 primaries secondaries
    (if cfg.useNewCode4 then seed1 else seed2)
    (pack_table2 cfg seed1 size1 primaries secondaries (init_pack size1))
    (pack_table cfg (if cfg.useNewCode4 then seed1 else seed2) size2
      (pack_table2 cfg seed1 size1 primaries secondaries (init_pack size1)).tail
      (init_pack size2))
    rfl rfl rfl h1u h2u hs1u hs2u hsz1 hsz2 hdeg S hS


/-- Witness for C1: three secondaries built into a two-slot table (plus
tail) under the modulo strategy; the stored class `⟨2, 20⟩` is found. -/
theorem C1_placement_witness :
    (1073741954 < u32 ∧ 0 < u32 ∧ 2 < u32 ∧ 0 < u32 ∧
      Klass.seed2size cfgM 1073741954 = 2 ∧ Klass.seed2size cfgM 0 = 0) ∧
    some (⟨2, 20⟩ : Klass) ∈ (build_secondary_supers cfgM 1073741954 2 0 0 []
        [⟨1, 10⟩, ⟨2, 20⟩, ⟨3, 30⟩]).storage ∧
    search_secondary_supers_table cfgM
        (build_secondary_supers cfgM 1073741954 2 0 0 [] [⟨1, 10⟩, ⟨2, 20⟩, ⟨3, 30⟩])
        ⟨2, 20⟩ = true :=
  ⟨⟨by decide, by decide, by decide, by decide, by decide, by decide⟩, by decide,
    C1_placement cfgM 1073741954 2 0 0 [] [⟨1, 10⟩, ⟨2, 20⟩, ⟨3, 30⟩]
      (by decide) (by decide) (by decide) (by decide) (by decide) (by decide)
      (by decide) ⟨2, 20⟩ (by decide)⟩

/-! ### Size-ladder termination (C7) -/

/-- Termination measure for the size ladder: the size itself in the
shrinking regimes (power-of-two sizing, or more than 16 elements), the
distance to the growth bound `num + minSize` in the growing regime. -/
def ladder_measure (cfg : Config) (num size : Nat) : Nat :=
  if cfg.sizingMode &&& 1 ≠ 0 ∨ 16 < num then size else (num + cfg.minSize) - size

lemma next_size_some_facts (cfg : Config) (num size ns : Nat)
    (hn : next_size cfg num size = some ns) :
    cfg.minSize < size ∧ ns = resize_table cfg size num ∧
      num / 2 < ns ∧ ns < num + cfg.minSize := by
  unfold next_size at hn
  dsimp only at hn
  split at hn
  · rename_i hms
    split at hn
    · rename_i hguard
      cases hn
      exact ⟨hms, rfl, hguard.1, hguard.2⟩
    · cases hn
  · cases hn

lemma resize_table_eq (cfg : Config) (size num : Nat) :
    resize_table cfg size num
      = min (if cfg.sizingMode &&& 1 ≠ 0 then
              (if 0 < size then min (size / 2) cfg.maxSize
               else if cfg.minSize ≤ num then round_down_power_of_2 num else 0)
            else
              (if 0 < size then
                (if 16 < num then max (size - 1) (max (num / 2) cfg.minSize) else size + 1)
               else if cfg.minSize ≤ num then min (num / 2 + 10) num else 0))
          cfg.maxSize := rfl

lemma next_size_decreases (cfg : Config) (num size ns : Nat)
    (h : 16 < num ∨ num + cfg.minSize ≤ cfg.maxSize)
    (hn : next_size cfg num size = some ns) :
    ladder_measure cfg num ns < ladder_measure cfg num size := by
  obtain ⟨hms, hval, hg1, hg2⟩ := next_size_some_facts cfg num size ns hn
  rw [resize_table_eq] at hval
  unfold ladder_measure
  by_cases hbit : cfg.sizingMode &&& 1 ≠ 0
  · rw [if_pos (Or.inl hbit)]
    rw [if_pos (Or.inl hbit)]
    rw [if_pos hbit, if_pos (by omega : 0 < size)] at hval
    omega
  · rw [if_neg hbit, if_pos (by omega : 0 < size)] at hval
    rcases Nat.lt_or_ge 16 num with h16 | h16
    · rw [if_pos (Or.inr h16)]
      rw [if_pos (Or.inr h16)]
      rw [if_pos h16] at hval
      omega
    · have hnot : ¬ (cfg.sizingMode &&& 1 ≠ 0 ∨ 16 < num) := by
        intro hc
        rcases hc with hc | hc
        · exact hbit hc
        · omega
      rw [if_neg hnot, if_neg hnot]
      rw [if_neg (by omega : ¬ 16 < num)] at hval
      have hMax : num + cfg.minSize ≤ cfg.maxSize := by
        rcases h with h | h
        · omega
        · exact h
      omega

/-- Counterexample to C7 as stated: with 20 elements and a current table
size of 18, exhausting the attempt budget makes the search restart with
the smaller size 17 (`resize_table` removes a slot), not a larger one. -/
theorem C7_counterexample_shrinks : next_size cfgA 20 18 = some 17 ∧ 17 < 18 := by
  constructor
  · decide
  · decide

/-- C7 (amended): when the attempt budget for a size is exhausted without
perfect packing, the search replaces the table size via `resize_table`
(shrinking toward half the element count when more than 16 elements, or
in power-of-two mode; growing by one slot otherwise) and restarts; it
stops once the size leaves the window `(num/2, num + minSize)` or falls
to the minimum size.  The ladder terminates for every input (given more
than 16 elements, or the growth bound `num + minSize` within the maximum
size cap), and `table_size == 0` with all elements in the tail is an
accepted (`is_done`) outcome. -/
theorem C7_size_ladder_terminates (cfg : Config) (num size : Nat)
    (h : 16 < num ∨ num + cfg.minSize ≤ cfg.maxSize) :
    (∃ k, (ladder_step cfg num)^[k] (some size) = none) ∧ is_done 0 num num = true := by
  constructor
  · have key : ∀ n s, ladder_measure cfg num s ≤ n →
        ∃ k, (ladder_step cfg num)^[k] (some s) = none := by
      intro n
      induction n with
      | zero =>
        intro s hs
        cases hnext : next_size cfg num s with
        | none => exact ⟨1, by simp [ladder_step, hnext]⟩
        | some ns =>
          have := next_size_decreases cfg num s ns h hnext
          omega
      | succ n ih =>
        intro s hs
        cases hnext : next_size cfg num s with
        | none => exact ⟨1, by simp [ladder_step, hnext]⟩
        | some ns =>
          have hdec := next_size_decreases cfg num s ns h hnext
          obtain ⟨k, hk⟩ := ih ns (by omega)
          refine ⟨k + 1, ?_⟩
          rw [Function.iterate_succ_apply]
          rw [show ladder_step cfg num (some s) = some ns from by simp [ladder_step, hnext]]
          exact hk
    exact key (ladder_measure cfg num size) size (le_refl _)
  · rfl

/-- Witness for the amended C7 at 20 elements starting from size 20. -/
theorem C7_size_ladder_terminates_witness :
    (16 < 20 ∨ 20 + cfgA.minSize ≤ cfgA.maxSize) ∧
      ((∃ k, (ladder_step cfgA 20)^[k] (some 20) = none) ∧ is_done 0 20 20 = true) :=
  ⟨Or.inl (by decide), C7_size_ladder_terminates cfgA 20 20 (Or.inl (by decide))⟩

/-! ### Zone dependency (C10) -/

lemma compose_marker_eq (cfg : Config) :
    Klass.compose_seed32 cfg (u32 - 1) 0
      = (u32 - 1) &&& (u32 - 1 - right_n_bits (2 * Klass.size_shift cfg)) := by
  unfold Klass.compose_seed32
  dsimp only
  rw [if_neg (by omega : ¬ (0:Nat) < 0)]
  rw [Nat.zero_shiftLeft, Nat.or_zero, Nat.or_zero]

lemma compose_marker_lt (cfg : Config) : Klass.compose_seed32 cfg (u32 - 1) 0 < u32 := by
  rw [compose_marker_eq]
  have h := Nat.and_le_left (n := u32 - 1)
    (m := u32 - 1 - right_n_bits (2 * Klass.size_shift cfg))
  have hu : 0 < u32 := by norm_num [u32]
  omega

lemma seed2size_zero (cfg : Config) : Klass.seed2size cfg 0 = 0 := by
  simp [Klass.seed2size]

/-- Counterexample to C10 as stated: `set_secondary_supers` called with a
non-empty array and primary seed 0 stores the tail-only marker
`compose_seed32(0xFFFFFFFF, 0)` in the high half, so this constructed
table has a nonzero secondary seed together with a zero primary seed. -/
theorem C10_counterexample_marker :
    set_secondary_supers_seed cfgA (some [some ⟨1, 10⟩]) 0 0 >>> 32 ≠ 0 ∧
      set_secondary_supers_seed cfgA (some [some ⟨1, 10⟩]) 0 0 % u32 = 0 := by
  constructor
  · decide
  · decide

/-- C10 (amended): for every seed word stored by
`Klass::set_secondary_supers` (under its asserted preconditions on the
arguments), a decoded primary table size of zero forces a decoded
secondary table size of zero — the tail-only marker decodes to size 0 —
so the lookup may skip to the tail scan when the primary zone is empty.
The stored secondary seed word itself, however, may be nonzero while the
primary seed is zero. -/
theorem C10_zone_dependency (cfg : Config) (k : Option (List (Option Klass)))
    (seed1 seed2 : Nat)
    (hcfg : 2 * Klass.size_shift cfg ≤ 32)
    (h1u : seed1 < u32) (h2u : seed2 < u32)
    (h12 : seed1 = 0 → seed2 = 0)
    (hsz : Klass.seed2size cfg seed1 = 0 → seed1 = 0) :
    Klass.seed2size cfg (set_secondary_supers_seed cfg k seed1 seed2 % u32) = 0 →
      Klass.seed2size cfg (set_secondary_supers_seed cfg k seed1 seed2 >>> 32 % u32) = 0 := by
  intro hlo0
  unfold set_secondary_supers_seed at hlo0 ⊢
  cases k with
  | none =>
    dsimp only at hlo0 ⊢
    rw [seed_combine_lo _ _ h1u] at hlo0
    rw [seed_combine_hi _ _ h1u h2u]
    rw [h12 (hsz hlo0)]
    exact seed2size_zero cfg
  | some arr =>
    dsimp only at hlo0 ⊢
    by_cases hcond : 0 < arr.length ∧ seed1 = 0
    · rw [if_pos hcond] at hlo0 ⊢
      rw [seed_combine_hi _ _ h1u (compose_marker_lt cfg)]
      exact seed2size_compose cfg hcfg (u32 - 1) 0 (Nat.zero_le _)
    · rw [if_neg hcond] at hlo0 ⊢
      rw [seed_combine_lo _ _ h1u] at hlo0
      rw [seed_combine_hi _ _ h1u h2u]
      rw [h12 (hsz hlo0)]
      exact seed2size_zero cfg

/-- Witness for the amended C10 at the tail-only marker case. -/
theorem C10_zone_dependency_witness :
    (2 * Klass.size_shift cfgA ≤ 32 ∧ (0:Nat) < u32 ∧ ((0:Nat) = 0 → (0:Nat) = 0) ∧
      (Klass.seed2size cfgA 0 = 0 → (0:Nat) = 0)) ∧
    (Klass.seed2size cfgA
        (set_secondary_supers_seed cfgA (some [some ⟨1, 10⟩]) 0 0 % u32) = 0 →
      Klass.seed2size cfgA
        (set_secondary_supers_seed cfgA (some [some ⟨1, 10⟩]) 0 0 >>> 32 % u32) = 0) :=
  ⟨⟨by decide, by decide, fun h => h, fun _ => rfl⟩,
    C10_zone_dependency cfgA (some [some ⟨1, 10⟩]) 0 0 (by decide) (by decide) (by decide)
      (fun h => h) (fun _ => rfl)⟩

end JdkSS
